import Mathlib

/-!
Verification of the MKV batch-processing pipeline in
`mkvtoolnix_title_and_subtitles.py` (class `MKVProcessor`).

The Python script is shallowly embedded: `os.path` string helpers become pure
string functions (POSIX separator semantics), the two JSON ledger files become
an explicit `LedgerFile` value each, every `print` becomes a `LogEvent`
appended to the run state, `subprocess.run` becomes an environment function
from the argument vector to a `ToolResult`, and the one uncaught exception
path (`subprocess.run` raising an `OSError` when the tool cannot be launched,
which the `except subprocess.CalledProcessError` clause does not catch)
becomes the `PyResult.raised` constructor that propagates to the top.
-/

namespace MKV

/-! ### `os.path` string helpers (POSIX semantics) -/

/-- The characters after the last separator: aggregate left to right,
restarting at every `/`. -/
def afterLastSlash (cs : List Char) : List Char :=
  cs.foldl (fun acc c => if c = '/' then [] else acc ++ [c]) []

/-- `os.path.basename`: the part of the path after the last separator. -/
def basename (p : String) : String :=
  String.mk (afterLastSlash p.data)

/-- Python `str.split(sep)` for the one-character separator `/`. -/
def splitSlash : List Char → List (List Char)
  | [] => [[]]
  | c :: cs =>
      let r := splitSlash cs
      if c = '/' then [] :: r else (c :: r.headD []) :: r.tail

/-- Python `str.strip()`: the string with leading and trailing whitespace
removed. -/
def pyStrip (s : String) : String :=
  String.mk (((s.data.dropWhile Char.isWhitespace).reverse.dropWhile
    Char.isWhitespace).reverse)

/-- The single-quote character, used by Python `repr` of strings. -/
def squote : String := String.mk [Char.ofNat 39]

/-- Whether a path string begins with the separator (Python
`b.startswith(sep)`). -/
def headIsSlash (s : String) : Bool :=
  s.data.head? == some '/'

/-- Whether a path string ends with the separator (Python
`a.endswith(sep)`). -/
def lastIsSlash (s : String) : Bool :=
  s.data.getLast? == some '/'

/-- `os.path.join a b` for a single extra component: `b` if it is absolute,
otherwise `a` and `b` glued with exactly one separator. -/
def osPathJoin (a b : String) : String :=
  if headIsSlash b then b
  else if a = "" then b
  else if lastIsSlash a then a ++ b
  else a ++ "/" ++ b

/-- `p.rfind(c)` restricted to what `splitext` needs: the index of the last
occurrence of the dot in `l`, or `none` when there is no dot. -/
def lastDot? : List Char → Option Nat
  | [] => none
  | c :: cs =>
      match lastDot? cs with
      | some i => some (i + 1)
      | none => if c = '.' then some 0 else none

/-- `os.path.splitext` on a separator-free file name, following CPython:
split at the last dot, except that a name whose every character before the
last dot is itself a dot (such as `.bashrc` or `..d`) is not split. -/
def splitextChars (cs : List Char) : List Char × List Char :=
  let lead := (cs.takeWhile (fun x => x == '.')).length
  let rest := cs.drop lead
  match lastDot? rest with
  | some j => (cs.take (lead + j), cs.drop (lead + j))
  | none => (cs, [])

/-- `os.path.splitext` on a file name (no separators): `(stem, extension)`. -/
def splitextName (n : String) : String × String :=
  let p := splitextChars n.data
  (String.mk p.1, String.mk p.2)

/-- `os.curdir`. -/
def osCurdir : String := "."

/-- `posixpath.normpath`: collapse separators, drop `.` components, resolve
`..` components textually, preserving an initial `//` exactly. -/
def pyNormpath (p : String) : String :=
  if p = "" then "." else
  let initialSlashes : Nat :=
    if p.data.take 1 = ['/'] then
      if p.data.take 2 = ['/', '/'] && !(p.data.take 3 = ['/', '/', '/'])
        then 2 else 1
    else 0
  let comps := (splitSlash p.data).map String.mk
  let newComps := comps.foldl (fun acc comp =>
    if comp = "" || comp = "." then acc
    else if comp != ".." || (initialSlashes = 0 && acc = []) ||
        (acc ≠ [] && acc.getLastD "" = "..") then acc ++ [comp]
    else if acc ≠ [] then acc.dropLast
    else acc) []
  let joined := String.intercalate "/" newComps
  let out := String.mk (List.replicate initialSlashes '/') ++ joined
  if out = "" then "." else out

/-! ### Ledger model (`_write_or_append_to_json`) -/

/-- One element of the `messages` array of a ledger file. -/
structure Entry where
  timestamp : String
  message : String
  deriving Repr, DecidableEq

/-- The value stored under the root key of a ledger JSON file. -/
structure Store where
  created_date : String
  updated_date : String
  count : Nat
  messages : List Entry
  deriving Repr, DecidableEq

/-- The observable state of one ledger file on disk, as far as
`_write_or_append_to_json` can distinguish it: absent, present but empty
(`os.path.getsize == 0`), present but undecodable (`json.load` raises
`json.JSONDecodeError`, which the code catches), or decoded, in which case
the root key `<script>_<suffix>` is either present with its store or absent. -/
inductive LedgerFile where
  | missing
  | empty
  | corrupt
  | parsed (store : Option Store)
  deriving Repr, DecidableEq

/-- The dictionary `data` as it stands after the read phase of
`_write_or_append_to_json`: the root key's store when the file decoded and
held it, and the fresh `{}` in every other case (missing file, empty file,
caught `JSONDecodeError`). -/
def readData : LedgerFile → Option Store
  | .missing => none
  | .empty => none
  | .corrupt => none
  | .parsed s => s

/-- The update phase of `_write_or_append_to_json`: with `current_time = now`
and `new_message = [{timestamp: now, message: message}]`, either extend the
existing store (refresh `updated_date`, extend `messages`, recompute `count`
as the length of `messages`) or initialize a fresh store. Returns the store
written back under the root key. -/
def writeOrAppend (file : LedgerFile) (now message : String) : Store :=
  let newMessage : List Entry := [⟨now, message⟩]
  match readData file with
  | some st =>
      let msgs := st.messages ++ newMessage
      { st with updated_date := now, messages := msgs, count := msgs.length }
  | none =>
      { created_date := now, updated_date := now,
        count := newMessage.length, messages := newMessage }

/-- The on-disk result of one completed `_write_or_append_to_json` call. -/
def fileAfterWrite (file : LedgerFile) (now message : String) : LedgerFile :=
  .parsed (some (writeOrAppend file now message))

/-- The on-disk result of a sequence of `_write_or_append_to_json` calls,
each given as a `(current_time, message)` pair. -/
def fileAfterWrites (file : LedgerFile) : List (String × String) → LedgerFile
  | [] => file
  | w :: ws => fileAfterWrites (fileAfterWrite file w.1 w.2) ws

/-- Number of recorded messages visible in a ledger file (`0` when the read
phase would start from the fresh `{}`). -/
def storeLen (file : LedgerFile) : Nat :=
  match readData file with
  | some st => st.messages.length
  | none => 0

/-- The `count` field visible in a ledger file (`0` when absent). -/
def storeCount (file : LedgerFile) : Nat :=
  match readData file with
  | some st => st.count
  | none => 0

/-- The recorded messages visible in a ledger file (`[]` when the read phase
would start from the fresh `{}`). -/
def storeMessages (file : LedgerFile) : List Entry :=
  match readData file with
  | some st => st.messages
  | none => []

/-! ### The processor, its configuration and its environment -/

/-- The `MKV_PROCESSOR_CONFIG` dictionary handed to `MKVProcessor.__init__`. -/
structure Config where
  mkvmerge_executable : String
  input_directories : List String
  file_extensions : List String
  subtitle_tracks : String
  output_extension : String

/-- The attributes an `MKVProcessor` instance carries after `__init__`. -/
structure MKVProcessor where
  MKVMERGE_EXECUTABLE : String
  INPUT_DIRECTORIES : List String
  FILE_EXTENSIONS : List String
  SUBTITLE_TRACKS : String
  OUTPUT_EXTENSION : String

/-- `MKVProcessor.__init__`: the executable path and every input directory
are passed through `os.path.normpath`; the other fields are taken verbatim. -/
def MKVProcessor.init (config : Config) : MKVProcessor :=
  { MKVMERGE_EXECUTABLE := pyNormpath config.mkvmerge_executable
    INPUT_DIRECTORIES := config.input_directories.map pyNormpath
    FILE_EXTENSIONS := config.file_extensions
    SUBTITLE_TRACKS := config.subtitle_tracks
    OUTPUT_EXTENSION := config.output_extension }

/-- What one `subprocess.run(command, check=True)` call can do: return after
the child exits with status zero, raise `subprocess.CalledProcessError`
(non-zero exit status, carried as a positive code), or raise an `OSError`
because the process could not be launched at all. -/
inductive ToolResult where
  | exitZero
  | exitNonZero (code : Nat)
  | launchFailure
  deriving Repr, DecidableEq

/-- The parts of the outside world the script consults: `os.path.isfile`,
`os.path.isdir`, `os.path.exists`, `pathlib.Path(dir).glob("*.ext")` (the
discovered paths, in enumeration order), the external tool keyed by its full
argument vector, and `datetime.now()` as a stream of timestamp strings
indexed by how many calls have happened. -/
structure Env where
  isFile : String → Bool
  isDir : String → Bool
  pathExists : String → Bool
  glob : String → String → List String
  tool : List String → ToolResult
  now : Nat → String

/-- One terminal `print` of the script, with the data the printed text
interpolates. -/
inductive LogEvent where
  | startedAt (t : String)
  | execNotFound
  | execPath (p : String)
  | noDirectories
  | emptyDirWarning
  | curdirWarning
  | missingDirWarning (d : String)
  | workingDir (d : String)
  | processingFile (name : String)
  | successLine (m : String)
  | errorLine (m : String)
  | corruptLedgerWarning (isSuccess : Bool)
  | checkFilesNote
  | exitingMissingExec
  | finishedAt (t : String)
  | executionTime
  deriving Repr, DecidableEq

/-- The mutable world the run threads along: the two ledger files, every
`subprocess` argument vector handed to `subprocess.run` so far, every
directory created by `os.makedirs`, the prints emitted so far, and how many
times `datetime.now()` has been called. -/
structure RunState where
  successFile : LedgerFile
  errorFile : LedgerFile
  commands : List (List String)
  dirsCreated : List String
  log : List LogEvent
  tick : Nat
  deriving Repr, DecidableEq

/-- Outcome of a Python block: normal completion with a value, or an uncaught
exception propagating; both carry the world as it stands at that point. -/
inductive PyResult (α : Type) where
  | ok (a : α) (s : RunState)
  | raised (s : RunState)
  deriving Repr, DecidableEq

/-- The run state inside a `PyResult`, whichever way the block ended. -/
def PyResult.state : PyResult α → RunState
  | .ok _ s => s
  | .raised s => s

/-- Append one print to the log. -/
def logEvent (e : LogEvent) (s : RunState) : RunState :=
  { s with log := s.log ++ [e] }

/-- One `datetime.now().strftime(...)` call: the next timestamp string and
the advanced state. -/
def takeNow (env : Env) (s : RunState) : String × RunState :=
  (env.now s.tick, { s with tick := s.tick + 1 })

/-- `_write_or_append_to_json(message, is_success)`: consumes one
`datetime.now()`, prints the corrupt-file warning when `json.load` failed,
and replaces the chosen ledger file with the store written back. -/
def writeOrAppendToJson (env : Env) (message : String) (isSuccess : Bool)
    (s : RunState) : RunState :=
  let t := (takeNow env s).1
  let s := (takeNow env s).2
  let file := if isSuccess then s.successFile else s.errorFile
  let s := if file = .corrupt then logEvent (.corruptLedgerWarning isSuccess) s else s
  if isSuccess then
    { s with successFile := fileAfterWrite s.successFile t message }
  else
    { s with errorFile := fileAfterWrite s.errorFile t message }

/-! ### The pipeline (`check_executables` through `run`) -/

/-- The message recorded by `check_executables` when the executable is not a
regular file. -/
def missingExecMsg (p : MKVProcessor) : String :=
  "Error: MKVToolNix executable not found at the specified path.\n mkvmerge path: "
    ++ p.MKVMERGE_EXECUTABLE

/-- `check_executables`: `os.path.isfile` on the executable path; on failure
prints two error lines, records one error-ledger message, returns `False`. -/
def check_executables (p : MKVProcessor) (env : Env) (s : RunState) :
    Bool × RunState :=
  if env.isFile p.MKVMERGE_EXECUTABLE then (true, s)
  else
    let s := logEvent .execNotFound s
    let s := logEvent (.execPath p.MKVMERGE_EXECUTABLE) s
    let s := writeOrAppendToJson env (missingExecMsg p) false s
    (false, s)

/-- The argument vector `remove_title_keep_english_subs` builds for
`subprocess.run`. -/
def buildCommand (p : MKVProcessor) (file_path output_path : String) :
    List String :=
  [p.MKVMERGE_EXECUTABLE, "-o", output_path, "--title", "",
   "--subtitle-tracks", p.SUBTITLE_TRACKS, file_path]

/-- Python `repr` of a list of (well-behaved) strings, as `"%s"`-formatting
a list renders it inside `str(CalledProcessError)`. -/
def pyListRepr (xs : List String) : String :=
  "[" ++ String.intercalate ", " (xs.map (fun a => squote ++ a ++ squote)) ++ "]"

/-- `str(e)` for `e : subprocess.CalledProcessError` with a positive exit
status. -/
def calledProcessErrorStr (cmd : List String) (code : Nat) : String :=
  "Command " ++ squote ++ pyListRepr cmd ++ squote
    ++ " returned non-zero exit status " ++ toString code ++ "."

/-- The two success lines, joined as the recorded success message. -/
def successMsg (file_path output_path : String) : String :=
  "Removed title and non-English subtitles from " ++ basename file_path
    ++ "\n" ++ "Saved as " ++ basename output_path

/-- The recorded message for a non-zero exit status. -/
def errorMsg (file_path : String) (cmd : List String) (code : Nat) : String :=
  "Error processing " ++ basename file_path ++ ": " ++ calledProcessErrorStr cmd code

/-- `remove_title_keep_english_subs(file_path, output_path)`: prints the
progress line, hands the argument vector to `subprocess.run(_, check=True)`;
exit status zero prints and records the success message and returns `True`;
`subprocess.CalledProcessError` prints and records the error message and
returns `False`; any other exception (the tool could not be launched) is not
caught and propagates. -/
def remove_title_keep_english_subs (p : MKVProcessor) (env : Env)
    (file_path output_path : String) (s : RunState) : PyResult Bool :=
  let s := logEvent (.processingFile (basename file_path)) s
  let command := buildCommand p file_path output_path
  let s := { s with commands := s.commands ++ [command] }
  match env.tool command with
  | .exitZero =>
      let m1 := "Removed title and non-English subtitles from " ++ basename file_path
      let m2 := "Saved as " ++ basename output_path
      let s := logEvent (.successLine m1) s
      let s := logEvent (.successLine m2) s
      let s := writeOrAppendToJson env (successMsg file_path output_path) true s
      .ok true s
  | .exitNonZero code =>
      let m := errorMsg file_path command code
      let s := logEvent (.errorLine m) s
      let s := writeOrAppendToJson env m false s
      .ok false s
  | .launchFailure => .raised s

/-- The output path `process_file` derives:
`os.path.join(output_dir, splitext(basename(file_path))[0] + OUTPUT_EXTENSION)`. -/
def processOutputPath (p : MKVProcessor) (file_path output_dir : String) :
    String :=
  osPathJoin output_dir ((splitextName (basename file_path)).1 ++ p.OUTPUT_EXTENSION)

/-- Whether `os.path.exists(d)` holds at this point of the run: true in the
starting file system or because the run already created `d`. -/
def dirExistsNow (env : Env) (s : RunState) (d : String) : Bool :=
  env.pathExists d || s.dirsCreated.contains d

/-- `process_file(file_path, output_dir)`: create the output directory if it
does not exist yet, derive the output path from the stem of the file's base
name, and call `remove_title_keep_english_subs` (its return value is
dropped). -/
def process_file (p : MKVProcessor) (env : Env)
    (file_path output_dir : String) (s : RunState) : PyResult Unit :=
  let s := if dirExistsNow env s output_dir then s
    else { s with dirsCreated := s.dirsCreated ++ [output_dir] }
  let output_path := processOutputPath p file_path output_dir
  match remove_title_keep_english_subs p env file_path output_path s with
  | .ok _ s => .ok () s
  | .raised s => .raised s

/-- The `for ext_file in ext_files` loop of `process_directory`. -/
def processFilesLoop (p : MKVProcessor) (env : Env) (output_dir : String) :
    List String → RunState → PyResult Unit
  | [], s => .ok () s
  | f :: fs, s =>
      match process_file p env f output_dir s with
      | .ok _ s => processFilesLoop p env output_dir fs s
      | .raised s => .raised s

/-- The files `process_directory` collects: for each configured extension in
order, the matches of `*.{ext}` in the input directory. -/
def discoveredIn (p : MKVProcessor) (env : Env) (input_dir : String) :
    List String :=
  p.FILE_EXTENSIONS.flatMap (fun ext => env.glob input_dir ext)

/-- `process_directory(input_dir)`: collect the extension matches, fix
`output_dir = os.path.join(input_dir, "processed_files")`, process each file
in order. -/
def process_directory (p : MKVProcessor) (env : Env) (input_dir : String)
    (s : RunState) : PyResult Unit :=
  let ext_files := discoveredIn p env input_dir
  let output_dir := osPathJoin input_dir "processed_files"
  processFilesLoop p env output_dir ext_files s

/-- The warning `run` prints for a directory entry it skips: the
empty-after-strip check, then the current-directory check, then the
existence check. -/
def dirWarning (d : String) : LogEvent :=
  if pyStrip d = "" then .emptyDirWarning
  else if pyNormpath d = pyNormpath osCurdir then .curdirWarning
  else .missingDirWarning d

/-- Whether `run` skips the (already normalized) directory entry `d`. -/
def skipsDir (env : Env) (d : String) : Bool :=
  pyStrip d = "" || pyNormpath d = pyNormpath osCurdir || !env.isDir d

/-- The `for input_dir in self.INPUT_DIRECTORIES` loop of `run`: each entry
is skipped with one warning when it is empty after `strip`, normalizes to
the current directory, or is not a directory; otherwise the working-directory
line is printed and the directory is processed. -/
def dirLoop (p : MKVProcessor) (env : Env) :
    List String → RunState → PyResult Unit
  | [], s => .ok () s
  | d :: ds, s =>
      if skipsDir env d then
        dirLoop p env ds (logEvent (dirWarning d) s)
      else
        let s := logEvent (.workingDir d) s
        match process_directory p env d s with
        | .ok _ s => dirLoop p env ds s
        | .raised s => .raised s

/-- The directory-iteration part of `run`, after the executable check
succeeded: either the no-directories warning or the loop over the configured
entries. -/
def runChecked (p : MKVProcessor) (env : Env) (s : RunState) : PyResult Unit :=
  if p.INPUT_DIRECTORIES = [] then .ok () (logEvent .noDirectories s)
  else dirLoop p env p.INPUT_DIRECTORIES s

/-- The tail of `run`: unless an uncaught exception is propagating, print
the end time and the execution time. -/
def runFinish (env : Env) (r : PyResult Unit) : PyResult Unit :=
  match r with
  | .raised s => .raised s
  | .ok _ s =>
      let t1 := (takeNow env s).1
      let s := (takeNow env s).2
      let s := logEvent (.finishedAt t1) s
      .ok () (logEvent .executionTime s)

/-- The directory iteration of `run` followed by the summary-note print,
with an uncaught exception propagating past both. -/
def runBody (p : MKVProcessor) (env : Env) (s : RunState) : PyResult Unit :=
  match runChecked p env s with
  | .ok _ s2 => .ok () (logEvent .checkFilesNote s2)
  | .raised s2 => .raised s2

/-- `run()`: print the start time, check the executable; on success either
warn that no directories were provided or iterate them, then print the
summary note; on failure print the exiting line; finally (unless an uncaught
exception escaped the directory loop) print the end time and the execution
time. -/
def run (p : MKVProcessor) (env : Env) (s : RunState) : PyResult Unit :=
  let t0 := (takeNow env s).1
  let s := (takeNow env s).2
  let s := logEvent (.startedAt t0) s
  let checked := check_executables p env s
  runFinish env
    (if checked.1 then runBody p env checked.2
    else .ok () (logEvent .exitingMissingExec checked.2))

/-- The helper `_get_output_path(file_path, output_dir)`:
`os.path.join(output_dir, basename(file_path) + OUTPUT_EXTENSION)` — the
whole base name, original extension included. -/
def getOutputPath (p : MKVProcessor) (file_path output_dir : String) :
    String :=
  osPathJoin output_dir (basename file_path ++ p.OUTPUT_EXTENSION)

/-! ### Derived views of one run -/

/-- The configured input directories the run does not skip. -/
def validDirs (p : MKVProcessor) (env : Env) : List String :=
  p.INPUT_DIRECTORIES.filter (fun d => !skipsDir env d)

/-- The candidate files a list of directory entries contributes, paired with
the directory they were found in, in processing order. -/
def attemptedOver (p : MKVProcessor) (env : Env) (ds : List String) :
    List (String × String) :=
  (ds.filter (fun d => !skipsDir env d)).flatMap
    (fun d => (discoveredIn p env d).map (fun f => (d, f)))

/-- Every candidate file a run attempts, paired with its input directory. -/
def attempted (p : MKVProcessor) (env : Env) : List (String × String) :=
  attemptedOver p env p.INPUT_DIRECTORIES

/-- The argument vector the run hands to `subprocess.run` for one attempted
candidate. -/
def commandOf (p : MKVProcessor) (df : String × String) : List String :=
  buildCommand p df.2 (processOutputPath p df.2 (osPathJoin df.1 "processed_files"))

/-- Whether the external tool exits with status zero for one attempted
candidate. -/
def outcomeOk (p : MKVProcessor) (env : Env) (df : String × String) : Bool :=
  env.tool (commandOf p df) == .exitZero

/-- Both ledger files satisfy the documented invariant `count == len(messages)`
(vacuously when the read phase would start fresh). -/
def ledgersWF (s : RunState) : Prop :=
  storeCount s.successFile = storeLen s.successFile ∧
  storeCount s.errorFile = storeLen s.errorFile

/-! ### Concrete fixtures for witnesses and counterexamples -/

/-- A run state with no ledger files on disk and nothing logged yet. -/
def state0 : RunState :=
  ⟨.missing, .missing, [], [], [], 0⟩

/-- A run state whose error ledger file on disk is corrupt. -/
def stateCorrupt : RunState :=
  ⟨.corrupt, .corrupt, [], [], [], 0⟩

/-- A small concrete configuration: one input directory, one extension. -/
def configA : Config :=
  { mkvmerge_executable := "/usr/bin/mkvmerge"
    input_directories := ["/in"]
    file_extensions := ["mkv"]
    subtitle_tracks := "3,4"
    output_extension := ".mkv" }

/-- The processor built from `configA`. -/
def procA : MKVProcessor := MKVProcessor.init configA

/-- A file system containing `/in/a.mkv` and the executable, with a tool
that always exits zero. -/
def envOk : Env :=
  { isFile := fun q => q = "/usr/bin/mkvmerge"
    isDir := fun d => d = "/in"
    pathExists := fun _ => false
    glob := fun d ext => if d = "/in" && ext = "mkv" then ["/in/a.mkv"] else []
    tool := fun _ => .exitZero
    now := fun n => "t" ++ toString n }

/-- Like `envOk`, but the tool exits with status 2 on every invocation. -/
def envNonZero : Env :=
  { envOk with tool := fun _ => .exitNonZero 2 }

/-- Like `envOk`, but every attempt to launch the tool raises an `OSError`. -/
def envLaunch : Env :=
  { envOk with tool := fun _ => .launchFailure }

/-- Like `envOk`, but with no regular file at the executable path. -/
def envNoExec : Env :=
  { envOk with isFile := fun _ => false }

/-! ## Ledger lemmas -/

theorem storeLen_eq_length_storeMessages (f : LedgerFile) :
    storeLen f = (storeMessages f).length := by
  unfold storeLen storeMessages
  cases readData f <;> rfl

theorem writeOrAppend_count_eq (f : LedgerFile) (t m : String) :
    (writeOrAppend f t m).count = (writeOrAppend f t m).messages.length := by
  unfold writeOrAppend
  cases readData f <;> simp

theorem writeOrAppend_messages_eq (f : LedgerFile) (t m : String) :
    (writeOrAppend f t m).messages = storeMessages f ++ [⟨t, m⟩] := by
  unfold writeOrAppend storeMessages
  cases readData f <;> simp

theorem writeOrAppend_updated_eq (f : LedgerFile) (t m : String) :
    (writeOrAppend f t m).updated_date = t := by
  unfold writeOrAppend
  cases readData f <;> simp

theorem writeOrAppend_created_eq (f : LedgerFile) (t m : String) :
    (writeOrAppend f t m).created_date =
      (match readData f with
        | some old => old.created_date
        | none => t) := by
  unfold writeOrAppend
  cases readData f <;> simp

theorem storeMessages_fileAfterWrite (f : LedgerFile) (t m : String) :
    storeMessages (fileAfterWrite f t m) = storeMessages f ++ [⟨t, m⟩] := by
  have h := writeOrAppend_messages_eq f t m
  simpa [fileAfterWrite, storeMessages, readData] using h

theorem storeLen_fileAfterWrite (f : LedgerFile) (t m : String) :
    storeLen (fileAfterWrite f t m) = storeLen f + 1 := by
  rw [storeLen_eq_length_storeMessages, storeLen_eq_length_storeMessages,
    storeMessages_fileAfterWrite]
  simp

theorem storeCount_fileAfterWrite (f : LedgerFile) (t m : String) :
    storeCount (fileAfterWrite f t m) = storeLen (fileAfterWrite f t m) := by
  have h := writeOrAppend_count_eq f t m
  simp only [fileAfterWrite, storeCount, storeLen, readData]
  exact h

theorem storeMessages_fileAfterWrites (ws : List (String × String))
    (f : LedgerFile) :
    storeMessages (fileAfterWrites f ws)
      = storeMessages f ++ ws.map (fun w => ⟨w.1, w.2⟩) := by
  induction ws generalizing f with
  | nil => simp [fileAfterWrites]
  | cons w ws ih =>
      rw [fileAfterWrites, ih, storeMessages_fileAfterWrite]
      simp

theorem storeCount_fileAfterWrites (ws : List (String × String))
    (f : LedgerFile) (h : storeCount f = storeLen f) :
    storeCount (fileAfterWrites f ws) = storeLen (fileAfterWrites f ws) := by
  induction ws generalizing f with
  | nil => exact h
  | cons w ws ih =>
      rw [fileAfterWrites]
      exact ih _ (storeCount_fileAfterWrite f w.1 w.2)

/-! ## C3 and C4 -/

/-- C3: every `_write_or_append_to_json` call that completes leaves the
written store with `count` equal to the length of `messages`; it appends
exactly one message (all previously recorded messages are preserved),
refreshes `updated_date` to the call's timestamp, keeps `created_date` when
the root key was already present, and on first creation sets `created_date`
equal to `updated_date`. -/
theorem write_or_append_invariants (file : LedgerFile) (now message : String) :
    (writeOrAppend file now message).count
        = (writeOrAppend file now message).messages.length ∧
    (writeOrAppend file now message).messages
        = storeMessages file ++ [⟨now, message⟩] ∧
    (writeOrAppend file now message).updated_date = now ∧
    (writeOrAppend file now message).created_date
        = (match readData file with
            | some old => old.created_date
            | none => now) :=
  ⟨writeOrAppend_count_eq file now message,
   writeOrAppend_messages_eq file now message,
   writeOrAppend_updated_eq file now message,
   writeOrAppend_created_eq file now message⟩

/-- C4: when the ledger file on disk fails to decode (the caught
`json.JSONDecodeError` case), the next `_write_or_append_to_json` call
completes and replaces it with a fresh one-entry store whose creation and
update timestamps coincide, and any sequence of writes of the current run
yields exactly those entries, in order, with a matching `count`. -/
theorem corrupt_ledger_recovery (ws : List (String × String)) :
    (∀ t m, fileAfterWrite .corrupt t m = .parsed (some ⟨t, t, 1, [⟨t, m⟩]⟩)) ∧
    storeMessages (fileAfterWrites .corrupt ws)
        = ws.map (fun w => ⟨w.1, w.2⟩) ∧
    storeCount (fileAfterWrites .corrupt ws) = ws.length := by
  refine ⟨fun t m => rfl, ?_, ?_⟩
  · rw [storeMessages_fileAfterWrites]
    rfl
  · rw [storeCount_fileAfterWrites ws .corrupt rfl,
      storeLen_eq_length_storeMessages, storeMessages_fileAfterWrites]
    simp [storeMessages, readData]

/-! ## Effect lemmas for the run-state primitives -/

@[simp]
theorem logEvent_successFile (e : LogEvent) (s : RunState) :
    (logEvent e s).successFile = s.successFile := rfl

@[simp]
theorem logEvent_errorFile (e : LogEvent) (s : RunState) :
    (logEvent e s).errorFile = s.errorFile := rfl

@[simp]
theorem logEvent_commands (e : LogEvent) (s : RunState) :
    (logEvent e s).commands = s.commands := rfl

@[simp]
theorem logEvent_dirsCreated (e : LogEvent) (s : RunState) :
    (logEvent e s).dirsCreated = s.dirsCreated := rfl

@[simp]
theorem logEvent_tick (e : LogEvent) (s : RunState) :
    (logEvent e s).tick = s.tick := rfl

@[simp]
theorem logEvent_log (e : LogEvent) (s : RunState) :
    (logEvent e s).log = s.log ++ [e] := rfl

theorem writeOrAppendToJson_true_eq (env : Env) (m : String) (s : RunState) :
    writeOrAppendToJson env m true s =
      { s with
        successFile := fileAfterWrite s.successFile (env.now s.tick) m
        log := s.log ++ (if s.successFile = .corrupt
          then [.corruptLedgerWarning true] else [])
        tick := s.tick + 1 } := by
  by_cases h : s.successFile = .corrupt <;>
    simp [writeOrAppendToJson, takeNow, logEvent, h]

theorem writeOrAppendToJson_false_eq (env : Env) (m : String) (s : RunState) :
    writeOrAppendToJson env m false s =
      { s with
        errorFile := fileAfterWrite s.errorFile (env.now s.tick) m
        log := s.log ++ (if s.errorFile = .corrupt
          then [.corruptLedgerWarning false] else [])
        tick := s.tick + 1 } := by
  by_cases h : s.errorFile = .corrupt <;>
    simp [writeOrAppendToJson, takeNow, logEvent, h]

@[simp]
theorem writeOrAppendToJson_commands (env : Env) (m : String) (b : Bool)
    (s : RunState) : (writeOrAppendToJson env m b s).commands = s.commands := by
  cases b
  · rw [writeOrAppendToJson_false_eq]
  · rw [writeOrAppendToJson_true_eq]

@[simp]
theorem writeOrAppendToJson_dirsCreated (env : Env) (m : String) (b : Bool)
    (s : RunState) :
    (writeOrAppendToJson env m b s).dirsCreated = s.dirsCreated := by
  cases b
  · rw [writeOrAppendToJson_false_eq]
  · rw [writeOrAppendToJson_true_eq]

/-! ## Track-processor lemmas -/

theorem remove_title_commands (p : MKVProcessor) (env : Env)
    (f o : String) (s : RunState) :
    (remove_title_keep_english_subs p env f o s).state.commands
      = s.commands ++ [buildCommand p f o] := by
  unfold remove_title_keep_english_subs
  cases h : env.tool (buildCommand p f o) <;>
    simp [h, PyResult.state]

/-- Complete description of `remove_title_keep_english_subs` when the tool
launches: it returns `True` exactly on exit status zero, grows the matching
ledger store by one entry, leaves the other store alone, and preserves the
ledger well-formedness invariant. -/
theorem remove_title_result (p : MKVProcessor) (env : Env)
    (f o : String) (s : RunState)
    (hne : env.tool (buildCommand p f o) ≠ .launchFailure) :
    ∃ s2, remove_title_keep_english_subs p env f o s
        = .ok (env.tool (buildCommand p f o) == .exitZero) s2 ∧
      storeLen s2.successFile = storeLen s.successFile
        + (if env.tool (buildCommand p f o) == .exitZero then 1 else 0) ∧
      storeLen s2.errorFile = storeLen s.errorFile
        + (if env.tool (buildCommand p f o) == .exitZero then 0 else 1) ∧
      s2.dirsCreated = s.dirsCreated ∧
      s2.commands = s.commands ++ [buildCommand p f o] ∧
      (ledgersWF s → ledgersWF s2) := by
  cases h : env.tool (buildCommand p f o) with
  | exitZero =>
      have hb : (env.tool (buildCommand p f o) == ToolResult.exitZero) = true := by
        rw [h]; rfl
      simp only [remove_title_keep_english_subs, h, hb, if_true]
      refine ⟨_, rfl, ?_, ?_, by simp, by simp, ?_⟩
      · rw [writeOrAppendToJson_true_eq]
        simp [storeLen_fileAfterWrite]
      · rw [writeOrAppendToJson_true_eq]
        simp [storeLen]
      · rintro ⟨hs, he⟩
        rw [writeOrAppendToJson_true_eq]
        constructor
        · simpa using storeCount_fileAfterWrite _ _ _
        · simpa [storeCount, storeLen] using he
  | exitNonZero code =>
      have hb : (env.tool (buildCommand p f o) == ToolResult.exitZero) = false := by
        rw [h]; rfl
      simp only [remove_title_keep_english_subs, h, hb, if_false]
      refine ⟨_, rfl, ?_, ?_, by simp, by simp, ?_⟩
      · rw [writeOrAppendToJson_false_eq]
        simp [storeLen]
      · rw [writeOrAppendToJson_false_eq]
        simp [storeLen_fileAfterWrite]
      · rintro ⟨hs, he⟩
        rw [writeOrAppendToJson_false_eq]
        constructor
        · simpa [storeCount, storeLen] using hs
        · simpa using storeCount_fileAfterWrite _ _ _
  | launchFailure => exact absurd h hne

/-- `remove_title_keep_english_subs` when the tool cannot be launched: the
`OSError` is not caught, so the call neither returns nor records anything —
it raises with only the progress print and the attempted command added. -/
theorem remove_title_launch (p : MKVProcessor) (env : Env)
    (f o : String) (s : RunState)
    (h : env.tool (buildCommand p f o) = .launchFailure) :
    remove_title_keep_english_subs p env f o s =
      .raised { s with
        commands := s.commands ++ [buildCommand p f o]
        log := s.log ++ [.processingFile (basename f)] } := by
  simp only [remove_title_keep_english_subs, h, logEvent]

/-- Unfolding equation for `process_file`. -/
theorem process_file_eq (p : MKVProcessor) (env : Env) (f od : String)
    (s : RunState) :
    process_file p env f od s =
      (match remove_title_keep_english_subs p env f (processOutputPath p f od)
          (if dirExistsNow env s od then s
            else { s with dirsCreated := s.dirsCreated ++ [od] }) with
        | .ok _ s2 => .ok () s2
        | .raised s2 => .raised s2) := rfl

/-- `process_file` when the tool launches: it completes, growing exactly one
of the two ledger stores by one entry according to the exit status, and
preserves ledger well-formedness. -/
theorem process_file_result (p : MKVProcessor) (env : Env)
    (f od : String) (s : RunState)
    (hne : env.tool (buildCommand p f (processOutputPath p f od)) ≠ .launchFailure) :
    ∃ s2, process_file p env f od s = .ok () s2 ∧
      storeLen s2.successFile = storeLen s.successFile
        + (if env.tool (buildCommand p f (processOutputPath p f od)) == .exitZero
            then 1 else 0) ∧
      storeLen s2.errorFile = storeLen s.errorFile
        + (if env.tool (buildCommand p f (processOutputPath p f od)) == .exitZero
            then 0 else 1) ∧
      (ledgersWF s → ledgersWF s2) := by
  rw [process_file_eq]
  by_cases hex : dirExistsNow env s od = true
  · rw [if_pos hex]
    obtain ⟨s2, hrun, h1, h2, _, _, hwf⟩ :=
      remove_title_result p env f (processOutputPath p f od) s hne
    rw [hrun]
    exact ⟨s2, rfl, h1, h2, hwf⟩
  · rw [if_neg hex]
    obtain ⟨s2, hrun, h1, h2, _, _, hwf⟩ :=
      remove_title_result p env f (processOutputPath p f od)
        { s with dirsCreated := s.dirsCreated ++ [od] } hne
    rw [hrun]
    exact ⟨s2, rfl, h1, h2, hwf⟩

/-- Unfolding equation for one step of the file loop. -/
theorem processFilesLoop_cons (p : MKVProcessor) (env : Env)
    (od f : String) (fs : List String) (s : RunState) :
    processFilesLoop p env od (f :: fs) s =
      (match process_file p env f od s with
        | .ok _ s2 => processFilesLoop p env od fs s2
        | .raised s2 => .raised s2) := rfl

/-! ## C2 -/

/-- C2 as stated is false on the code: when the external tool cannot be
launched, `subprocess.run` raises an `OSError`, the
`except subprocess.CalledProcessError` clause does not catch it, so
`remove_title_keep_english_subs` does not return `False`, records nothing in
the error ledger, and the loop over the remaining files is abandoned: with
two discovered files the second is never attempted. -/
theorem launch_failure_not_caught_counterexample :
    remove_title_keep_english_subs procA envLaunch "/in/a.mkv"
        "/in/processed_files/a.mkv" state0
      = .raised ⟨.missing, .missing,
          [["/usr/bin/mkvmerge", "-o", "/in/processed_files/a.mkv", "--title",
            "", "--subtitle-tracks", "3,4", "/in/a.mkv"]],
          [], [.processingFile "a.mkv"], 0⟩ ∧
    processFilesLoop procA envLaunch "/in/processed_files"
        ["/in/a.mkv", "/in/b.mkv"] state0
      = .raised ⟨.missing, .missing,
          [["/usr/bin/mkvmerge", "-o", "/in/processed_files/a.mkv", "--title",
            "", "--subtitle-tracks", "3,4", "/in/a.mkv"]],
          ["/in/processed_files"], [.processingFile "a.mkv"], 0⟩ := by
  constructor <;> rfl

/-- C2 (amended): when the external tool exits with a non-zero status,
`remove_title_keep_english_subs` returns `False`, records exactly one
failure message (the `CalledProcessError` text) in the error ledger, leaves
the success ledger alone, and the file loop continues with the next file.
When the tool cannot be launched, the exception is not caught: the call
raises with no ledger write at all. -/
theorem nonzero_exit_records_failure_and_continues (p : MKVProcessor)
    (env : Env) (f o : String) (s : RunState) :
    (∀ code, env.tool (buildCommand p f o) = .exitNonZero code →
      ∃ s2, remove_title_keep_english_subs p env f o s = .ok false s2 ∧
        storeMessages s2.errorFile = storeMessages s.errorFile
          ++ [⟨env.now s.tick, errorMsg f (buildCommand p f o) code⟩] ∧
        s2.successFile = s.successFile) ∧
    (env.tool (buildCommand p f o) = .launchFailure →
      remove_title_keep_english_subs p env f o s =
        .raised { s with
          commands := s.commands ++ [buildCommand p f o]
          log := s.log ++ [.processingFile (basename f)] }) ∧
    (∀ fs od code,
      env.tool (buildCommand p f (processOutputPath p f od)) = .exitNonZero code →
      ∃ s2, processFilesLoop p env od (f :: fs) s
        = processFilesLoop p env od fs s2) := by
  refine ⟨?_, remove_title_launch p env f o s, ?_⟩
  · intro code h
    simp only [remove_title_keep_english_subs, h]
    refine ⟨_, rfl, ?_, ?_⟩
    · rw [writeOrAppendToJson_false_eq]
      simp [storeMessages_fileAfterWrite]
    · rw [writeOrAppendToJson_false_eq]
      simp
  · intro fs od code h
    have hne : env.tool (buildCommand p f (processOutputPath p f od))
        ≠ .launchFailure := by
      rw [h]; intro hx; cases hx
    obtain ⟨s2, hpf, -, -, -⟩ := process_file_result p env f od s hne
    refine ⟨s2, ?_⟩
    rw [processFilesLoop_cons, hpf]

/-- Witness for C2 (amended): a concrete invocation where the tool exits
with status 2. -/
theorem nonzero_exit_records_failure_witness :
    ∃ s2, remove_title_keep_english_subs procA envNonZero "/in/a.mkv"
        "/in/processed_files/a.mkv" state0 = .ok false s2 ∧
      storeMessages s2.errorFile = storeMessages state0.errorFile
        ++ [⟨envNonZero.now state0.tick,
          errorMsg "/in/a.mkv"
            (buildCommand procA "/in/a.mkv" "/in/processed_files/a.mkv") 2⟩] ∧
      s2.successFile = state0.successFile :=
  (nonzero_exit_records_failure_and_continues procA envNonZero "/in/a.mkv"
    "/in/processed_files/a.mkv" state0).1 2 rfl

/-! ## C5 -/

/-- C5: each `remove_title_keep_english_subs` invocation hands
`subprocess.run` exactly one argument vector, namely
`[executable, "-o", outputPath, "--title", "", "--subtitle-tracks",
subtitleSelector, inputPath]`, with the title argument the empty string,
whichever way the invocation ends. -/
theorem tool_invocation_argument_vector (p : MKVProcessor) (env : Env)
    (f o : String) (s : RunState) :
    (remove_title_keep_english_subs p env f o s).state.commands
      = s.commands ++
        [[p.MKVMERGE_EXECUTABLE, "-o", o, "--title", "",
          "--subtitle-tracks", p.SUBTITLE_TRACKS, f]] :=
  remove_title_commands p env f o s

/-! ## Path lemmas -/

theorem splitextChars_append (cs : List Char) :
    (splitextChars cs).1 ++ (splitextChars cs).2 = cs := by
  simp only [splitextChars]
  split <;> simp [List.take_append_drop]

theorem lastDot?_eq_zero {l : List Char} (h : lastDot? l = some 0) :
    l.head? = some '.' := by
  cases l with
  | nil => simp [lastDot?] at h
  | cons c cs =>
      simp only [lastDot?] at h
      cases hc : lastDot? cs with
      | some i => rw [hc] at h; simp at h
      | none =>
          rw [hc] at h
          by_cases hcd : c = '.'
          · simp [hcd]
          · simp [hcd] at h

theorem splitextChars_stem_ne_nil {cs : List Char}
    (h : (splitextChars cs).2 ≠ []) : (splitextChars cs).1 ≠ [] := by
  simp only [splitextChars] at h ⊢
  cases hd : lastDot? (cs.drop ((cs.takeWhile (fun x => x == '.')).length)) with
  | none => simp [hd] at h
  | some j =>
      simp only [hd] at h ⊢
      set lead := (cs.takeWhile (fun x => x == '.')).length with hlead
      have hlt : lead + j < cs.length := by
        by_contra hge
        exact h (List.drop_eq_nil_of_le (Nat.le_of_not_lt hge))
      have hcs : cs ≠ [] := by
        intro hnil
        rw [hnil] at hlt
        simp at hlt
      intro htake
      rcases (List.take_eq_nil_iff).mp htake with h0 | hnil
      · -- lead + j = 0, so lead = 0 and j = 0
        have hj : j = 0 := by omega
        have hl0 : lead = 0 := by omega
        rw [hj] at hd
        rw [hl0] at hd
        simp only [List.drop_zero] at hd
        have hhead := lastDot?_eq_zero hd
        cases cs with
        | nil => exact hcs rfl
        | cons c tl =>
            simp only [List.head?] at hhead
            have hc : c = '.' := by
              injection hhead with hh
            rw [hlead] at hl0
            rw [hc] at hl0
            simp [List.takeWhile] at hl0
      · exact hcs hnil

theorem splitextName_append (n : String) :
    (splitextName n).1 ++ (splitextName n).2 = n := by
  apply String.ext
  simp only [splitextName, String.data_append]
  exact splitextChars_append n.data

theorem data_ne_nil_of_ne_empty {s : String} (h : s ≠ "") : s.data ≠ [] := by
  intro hd
  exact h (String.ext hd)

theorem splitextName_stem_ne {n : String}
    (h : (splitextName n).2 ≠ "") : (splitextName n).1 ≠ "" := by
  intro h1
  have hne : (splitextChars n.data).2 ≠ [] := data_ne_nil_of_ne_empty h
  exact splitextChars_stem_ne_nil hne (congrArg String.data h1)

theorem headIsSlash_append (a b : String) (ha : a ≠ "") :
    headIsSlash (a ++ b) = headIsSlash a := by
  unfold headIsSlash
  rw [String.data_append, List.head?_append_of_ne_nil _ (data_ne_nil_of_ne_empty ha)]

theorem length_pos_of_ne_empty {s : String} (h : s ≠ "") : 0 < s.length :=
  List.length_pos.mpr (data_ne_nil_of_ne_empty h)

theorem osPathJoin_ne_of_length (d x y : String)
    (hlen : x.length ≠ y.length) (hh : headIsSlash x = headIsSlash y) :
    osPathJoin d x ≠ osPathJoin d y := by
  intro heq
  apply hlen
  unfold osPathJoin at heq
  by_cases hx : headIsSlash x = true
  · have hy : headIsSlash y = true := hh ▸ hx
    simp only [hx, hy, if_true] at heq
    rw [heq]
  · have hy : ¬headIsSlash y = true := hh ▸ hx
    simp only [if_neg hx, if_neg hy] at heq
    by_cases hd : d = ""
    · simp only [if_pos hd] at heq
      rw [heq]
    · simp only [if_neg hd] at heq
      by_cases hl : lastIsSlash d = true
      · simp only [if_pos hl] at heq
        have hlen2 := congrArg String.length heq
        simp only [String.length_append] at hlen2
        omega
      · simp only [if_neg hl] at heq
        have hlen2 := congrArg String.length heq
        simp only [String.length_append] at hlen2
        omega

/-- The state a `PyResult Bool` carries survives `process_file`'s trailing
match. -/
theorem pyResult_match_state (r : PyResult Bool) :
    (match r with
      | .ok _ s2 => (.ok () s2 : PyResult Unit)
      | .raised s2 => .raised s2).state = r.state := by
  cases r <;> rfl

theorem process_file_commands (p : MKVProcessor) (env : Env)
    (f od : String) (s : RunState) :
    (process_file p env f od s).state.commands
      = s.commands ++ [buildCommand p f (processOutputPath p f od)] := by
  rw [process_file_eq, pyResult_match_state, remove_title_commands]
  by_cases hex : dirExistsNow env s od = true
  · rw [if_pos hex]
  · rw [if_neg hex]

/-! ## C9 -/

/-- C9: two distinct candidate files of the same input directory whose stems
coincide but whose extensions differ are mapped by `process_file` to the
same derived output path, so the later invocation's `-o` target overwrites
the earlier one's output. -/
theorem duplicate_stem_collision (p : MKVProcessor) (d f g : String)
    (_hne : f ≠ g)
    (hstem : (splitextName (basename f)).1 = (splitextName (basename g)).1)
    (_hext : (splitextName (basename f)).2 ≠ (splitextName (basename g)).2) :
    processOutputPath p f (osPathJoin d "processed_files")
      = processOutputPath p g (osPathJoin d "processed_files") := by
  unfold processOutputPath
  rw [hstem]

/-- Witness for C9 at `movie.mkv` versus `movie.mp4` in `/in`. -/
theorem duplicate_stem_collision_witness :
    ("/in/movie.mkv" : String) ≠ "/in/movie.mp4" ∧
    (splitextName (basename "/in/movie.mkv")).1
      = (splitextName (basename "/in/movie.mp4")).1 ∧
    (splitextName (basename "/in/movie.mkv")).2
      ≠ (splitextName (basename "/in/movie.mp4")).2 ∧
    processOutputPath procA "/in/movie.mkv" (osPathJoin "/in" "processed_files")
      = processOutputPath procA "/in/movie.mp4"
          (osPathJoin "/in" "processed_files") :=
  ⟨by decide, by decide, by decide,
    duplicate_stem_collision procA "/in" "/in/movie.mkv" "/in/movie.mp4"
      (by decide) (by decide) (by decide)⟩

/-! ## C10 -/

/-- C10: `_get_output_path` joins the output directory with the candidate's
full base name (original extension retained) plus the output extension, and
whenever the file name has a non-empty extension this differs from the
stem-based output path that `process_file` actually hands to the tool. -/
theorem getOutputPath_differs_from_processed_path (p : MKVProcessor)
    (f od : String) :
    getOutputPath p f od = osPathJoin od (basename f ++ p.OUTPUT_EXTENSION) ∧
    ((splitextName (basename f)).2 ≠ "" →
      getOutputPath p f od ≠ processOutputPath p f od) := by
  refine ⟨rfl, fun hext => ?_⟩
  unfold getOutputPath processOutputPath
  have hstem : (splitextName (basename f)).1 ≠ "" := splitextName_stem_ne hext
  have hcat : (splitextName (basename f)).1 ++ (splitextName (basename f)).2
      = basename f := splitextName_append (basename f)
  revert hext hstem hcat
  generalize (splitextName (basename f)).1 = st
  generalize (splitextName (basename f)).2 = ex
  intro hext hstem hcat
  apply osPathJoin_ne_of_length
  · have hlcat := congrArg String.length hcat
    rw [String.length_append] at hlcat
    have hpos : 0 < ex.length := length_pos_of_ne_empty hext
    rw [String.length_append, String.length_append]
    omega
  · rw [← hcat, String.append_assoc,
      headIsSlash_append _ _ hstem, headIsSlash_append _ _ hstem]

/-- Witness for C10 at `/in/movie.mkv`: the helper's path keeps `.mkv` in
the name while the path actually used does not. -/
theorem getOutputPath_differs_witness :
    (splitextName (basename "/in/movie.mkv")).2 ≠ "" ∧
    getOutputPath procA "/in/movie.mkv" "/in/processed_files"
      ≠ processOutputPath procA "/in/movie.mkv" "/in/processed_files" :=
  ⟨by decide,
    (getOutputPath_differs_from_processed_path procA "/in/movie.mkv"
      "/in/processed_files").2 (by decide)⟩

/-! ## C7 -/

/-- C7: for every candidate file of the directory `d`, `process_file` hands
the tool exactly one command whose output path is the derived
`processOutputPath`, and — for a normalized, non-root parent directory and a
stem that does not begin with a separator — that path is literally
`d ++ "/processed_files/" ++ stem ++ OUTPUT_EXTENSION`, a function only of
the stem, the output extension and the parent directory. -/
theorem output_path_derivation (p : MKVProcessor) (env : Env) (d f : String)
    (s : RunState)
    (hrel : headIsSlash ((splitextName (basename f)).1 ++ p.OUTPUT_EXTENSION)
      = false)
    (hd0 : d ≠ "") (hds : lastIsSlash d = false) :
    (process_file p env f (osPathJoin d "processed_files") s).state.commands
      = s.commands ++ [buildCommand p f
          (processOutputPath p f (osPathJoin d "processed_files"))] ∧
    processOutputPath p f (osPathJoin d "processed_files")
      = d ++ "/processed_files/" ++ (splitextName (basename f)).1
          ++ p.OUTPUT_EXTENSION ∧
    (∀ g, (splitextName (basename g)).1 = (splitextName (basename f)).1 →
      processOutputPath p g (osPathJoin d "processed_files")
        = processOutputPath p f (osPathJoin d "processed_files")) := by
  have hjoin : osPathJoin d "processed_files" = d ++ "/processed_files" := by
    unfold osPathJoin
    rw [if_neg (by decide : ¬(headIsSlash "processed_files" = true)),
      if_neg hd0, if_neg (by rw [hds]; exact Bool.false_ne_true),
      String.append_assoc]
    exact congrArg (fun z => d ++ z)
      (by decide : ("/" ++ "processed_files" : String) = "/processed_files")
  refine ⟨process_file_commands p env f _ s, ?_, ?_⟩
  · have h16 : ("/processed_files" : String).length = 16 := by decide
    have ha0 : d ++ "/processed_files" ≠ "" := by
      intro he
      have hl := congrArg String.length he
      rw [String.length_append] at hl
      rw [h16] at hl
      simp at hl
    have has : lastIsSlash (d ++ "/processed_files") = false := by
      unfold lastIsSlash
      rw [String.data_append, List.getLast?_append_of_ne_nil _
        (by decide : ("/processed_files" : String).data ≠ [])]
      decide
    unfold processOutputPath
    rw [hjoin]
    unfold osPathJoin
    rw [if_neg (by rw [hrel]; exact Bool.false_ne_true), if_neg ha0,
      if_neg (by rw [has]; exact Bool.false_ne_true)]
    simp only [String.append_assoc]
    apply congrArg
    rw [← String.append_assoc]
    exact congrArg (fun z => z ++ ((splitextName (basename f)).1
      ++ p.OUTPUT_EXTENSION))
      (by decide : ("/processed_files" ++ "/" : String) = "/processed_files/")
  · intro g hg
    unfold processOutputPath
    rw [hg]

/-- Witness for C7 at `/in/movie.mkv` with output extension `.mkv`. -/
theorem output_path_derivation_witness :
    headIsSlash ((splitextName (basename "/in/movie.mkv")).1
        ++ procA.OUTPUT_EXTENSION) = false ∧
    ("/in" : String) ≠ "" ∧
    lastIsSlash "/in" = false ∧
    processOutputPath procA "/in/movie.mkv" (osPathJoin "/in" "processed_files")
      = "/in" ++ "/processed_files/" ++ (splitextName (basename "/in/movie.mkv")).1
          ++ procA.OUTPUT_EXTENSION :=
  ⟨by decide, by decide, by decide,
    (output_path_derivation procA envOk "/in" "/in/movie.mkv" state0
      (by decide) (by decide) (by decide)).2.1⟩

/-! ## Run-level lemmas -/

/-- Unfolding equation for `run`. -/
theorem run_eq (p : MKVProcessor) (env : Env) (s : RunState) :
    run p env s =
      runFinish env
        (if (check_executables p env
            (logEvent (.startedAt (env.now s.tick)) { s with tick := s.tick + 1 })).1
        then
          runBody p env
            (check_executables p env
              (logEvent (.startedAt (env.now s.tick)) { s with tick := s.tick + 1 })).2
        else
          .ok () (logEvent .exitingMissingExec
            (check_executables p env
              (logEvent (.startedAt (env.now s.tick)) { s with tick := s.tick + 1 })).2)) :=
  rfl

theorem runFinish_ok (env : Env) (s : RunState) :
    runFinish env (.ok () s) =
      .ok () { s with
        log := s.log ++ [.finishedAt (env.now s.tick), .executionTime]
        tick := s.tick + 1 } := by
  simp [runFinish, takeNow, logEvent]

theorem check_executables_found (p : MKVProcessor) (env : Env) (s : RunState)
    (h : env.isFile p.MKVMERGE_EXECUTABLE = true) :
    check_executables p env s = (true, s) := by
  unfold check_executables
  rw [if_pos h]

theorem check_executables_missing (p : MKVProcessor) (env : Env) (s : RunState)
    (h : env.isFile p.MKVMERGE_EXECUTABLE = false) :
    check_executables p env s =
      (false, writeOrAppendToJson env (missingExecMsg p) false
        (logEvent (.execPath p.MKVMERGE_EXECUTABLE) (logEvent .execNotFound s))) := by
  unfold check_executables
  rw [if_neg (by rw [h]; exact Bool.false_ne_true)]

/-! ## C6 -/

/-- C6: when no regular file exists at the configured executable path,
`run` completes without processing any directory: no `subprocess` invocation
happens and no directory is created (hence no output file), exactly one
failure about the missing executable is appended to the error ledger, and
the start-time, end-time and execution-time lines are still printed. -/
theorem missing_executable_aborts_run (p : MKVProcessor) (env : Env)
    (s : RunState) (hmiss : env.isFile p.MKVMERGE_EXECUTABLE = false) :
    run p env s = .ok () { s with
      errorFile := fileAfterWrite s.errorFile (env.now (s.tick + 1))
        (missingExecMsg p)
      log := s.log ++ [.startedAt (env.now s.tick), .execNotFound,
          .execPath p.MKVMERGE_EXECUTABLE]
        ++ (if s.errorFile = .corrupt then [.corruptLedgerWarning false] else [])
        ++ [.exitingMissingExec, .finishedAt (env.now (s.tick + 2)),
          .executionTime]
      tick := s.tick + 3 } ∧
    storeLen (fileAfterWrite s.errorFile (env.now (s.tick + 1))
        (missingExecMsg p))
      = storeLen s.errorFile + 1 := by
  refine ⟨?_, storeLen_fileAfterWrite _ _ _⟩
  rw [run_eq, check_executables_missing p env _ hmiss]
  rw [writeOrAppendToJson_false_eq]
  simp only [logEvent]
  rw [if_neg (by exact Bool.false_ne_true)]
  rw [runFinish_ok]
  by_cases hc : s.errorFile = .corrupt <;>
    simp [hc, List.append_assoc]

/-- Witness for C6: a concrete run with the executable absent. -/
theorem missing_executable_aborts_run_witness :
    run procA envNoExec state0 = .ok () { state0 with
      errorFile := fileAfterWrite state0.errorFile (envNoExec.now 1)
        (missingExecMsg procA)
      log := state0.log ++ [.startedAt (envNoExec.now 0), .execNotFound,
          .execPath procA.MKVMERGE_EXECUTABLE]
        ++ (if state0.errorFile = .corrupt
            then [.corruptLedgerWarning false] else [])
        ++ [.exitingMissingExec, .finishedAt (envNoExec.now 2), .executionTime]
      tick := 3 } ∧
    storeLen (fileAfterWrite state0.errorFile (envNoExec.now 1)
        (missingExecMsg procA))
      = storeLen state0.errorFile + 1 :=
  missing_executable_aborts_run procA envNoExec state0 rfl

/-- Unfolding equation for one step of the directory loop. -/
theorem dirLoop_cons (p : MKVProcessor) (env : Env) (d : String)
    (ds : List String) (s : RunState) :
    dirLoop p env (d :: ds) s =
      (if skipsDir env d then dirLoop p env ds (logEvent (dirWarning d) s)
      else
        match process_directory p env d (logEvent (.workingDir d) s) with
        | .ok _ s2 => dirLoop p env ds s2
        | .raised s2 => .raised s2) := rfl

/-! ## C8 -/

/-- C8: a configured directory entry that is empty after `strip`, normalizes
to the current-directory sentinel, or is not an existing directory, is
handled by the directory loop of `run` by appending exactly one warning
print to the log and moving on to the remaining entries: the ledger files,
command list, created directories and clock are untouched, no discovery is
attempted for it, and nothing is raised at this step. -/
theorem invalid_directory_skipped (p : MKVProcessor) (env : Env)
    (d : String) (ds : List String) (s : RunState)
    (hbad : pyStrip d = "" ∨ pyNormpath d = pyNormpath osCurdir ∨
      env.isDir d = false) :
    dirLoop p env (d :: ds) s
      = dirLoop p env ds { s with log := s.log ++ [dirWarning d] } ∧
    (dirWarning d = .emptyDirWarning ∨ dirWarning d = .curdirWarning ∨
      dirWarning d = .missingDirWarning d) := by
  have hskip : skipsDir env d = true := by
    unfold skipsDir
    rcases hbad with h | h | h <;> simp [h]
  constructor
  · rw [dirLoop_cons, if_pos hskip]
    rfl
  · unfold dirWarning
    by_cases h1 : pyStrip d = ""
    · simp [h1]
    · by_cases h2 : pyNormpath d = pyNormpath osCurdir <;> simp [h1, h2]

/-- Witness for C8: the current-directory sentinel entry `"."`. -/
theorem invalid_directory_skipped_witness :
    dirLoop procA envOk ["."] state0
      = dirLoop procA envOk [] { state0 with
          log := state0.log ++ [dirWarning "."] } ∧
    (dirWarning "." = .emptyDirWarning ∨ dirWarning "." = .curdirWarning ∨
      dirWarning "." = .missingDirWarning ".") :=
  invalid_directory_skipped procA envOk "." [] state0
    (Or.inr (Or.inl (by decide)))

/-! ## Counting lemmas for C1 -/

theorem processFilesLoop_result (p : MKVProcessor) (env : Env) (od : String)
    (fs : List String) : ∀ s : RunState,
    (∀ f ∈ fs, env.tool (buildCommand p f (processOutputPath p f od))
      ≠ ToolResult.launchFailure) →
    ∃ s2, processFilesLoop p env od fs s = .ok () s2 ∧
      storeLen s2.successFile = storeLen s.successFile
        + (fs.filter (fun f =>
            env.tool (buildCommand p f (processOutputPath p f od))
              == ToolResult.exitZero)).length ∧
      storeLen s2.errorFile = storeLen s.errorFile
        + (fs.filter (fun f =>
            !(env.tool (buildCommand p f (processOutputPath p f od))
              == ToolResult.exitZero))).length ∧
      (ledgersWF s → ledgersWF s2) := by
  induction fs with
  | nil =>
      intro s _
      exact ⟨s, rfl, by simp, by simp, id⟩
  | cons f fs ih =>
      intro s h
      obtain ⟨s1, hpf, ha, hb, hwf1⟩ := process_file_result p env f od s
        (h f (List.mem_cons_self f fs))
      obtain ⟨s2, hloop, ha2, hb2, hwf2⟩ := ih s1
        (fun g hg => h g (List.mem_cons_of_mem f hg))
      refine ⟨s2, ?_, ?_, ?_, fun hw => hwf2 (hwf1 hw)⟩
      · rw [processFilesLoop_cons, hpf]
        exact hloop
      · rw [ha2, ha, List.filter_cons]
        cases hbeq : (env.tool (buildCommand p f (processOutputPath p f od))
            == ToolResult.exitZero) <;> (simp [hbeq]; try omega)
      · rw [hb2, hb, List.filter_cons]
        cases hbeq : (env.tool (buildCommand p f (processOutputPath p f od))
            == ToolResult.exitZero) <;> (simp [hbeq]; try omega)

theorem attemptedOver_nil (p : MKVProcessor) (env : Env) :
    attemptedOver p env [] = [] := rfl

theorem attemptedOver_cons (p : MKVProcessor) (env : Env) (d : String)
    (ds : List String) :
    attemptedOver p env (d :: ds) =
      (if skipsDir env d then []
        else (discoveredIn p env d).map (fun f => (d, f)))
        ++ attemptedOver p env ds := by
  unfold attemptedOver
  rw [List.filter_cons]
  cases hsk : skipsDir env d <;> simp [hsk]

theorem outcomeOk_comp (p : MKVProcessor) (env : Env) (d : String) :
    (outcomeOk p env ∘ fun f => (d, f))
      = fun f => env.tool (buildCommand p f
          (processOutputPath p f (osPathJoin d "processed_files")))
          == ToolResult.exitZero := rfl

theorem outcomeNotOk_comp (p : MKVProcessor) (env : Env) (d : String) :
    ((fun df => !outcomeOk p env df) ∘ fun f => (d, f))
      = fun f => !(env.tool (buildCommand p f
          (processOutputPath p f (osPathJoin d "processed_files")))
          == ToolResult.exitZero) := rfl

theorem dirLoop_result (p : MKVProcessor) (env : Env) (ds : List String) :
    ∀ s : RunState,
    (∀ df ∈ attemptedOver p env ds, env.tool (commandOf p df)
      ≠ ToolResult.launchFailure) →
    ∃ s2, dirLoop p env ds s = .ok () s2 ∧
      storeLen s2.successFile = storeLen s.successFile
        + ((attemptedOver p env ds).filter (outcomeOk p env)).length ∧
      storeLen s2.errorFile = storeLen s.errorFile
        + ((attemptedOver p env ds).filter
            (fun df => !outcomeOk p env df)).length ∧
      (ledgersWF s → ledgersWF s2) := by
  induction ds with
  | nil =>
      intro s _
      exact ⟨s, rfl, by simp [attemptedOver_nil], by simp [attemptedOver_nil],
        id⟩
  | cons d ds ih =>
      intro s h
      cases hsk : skipsDir env d with
      | true =>
          have hrest : ∀ df ∈ attemptedOver p env ds,
              env.tool (commandOf p df) ≠ ToolResult.launchFailure := by
            intro df hdf
            apply h df
            rw [attemptedOver_cons, if_pos hsk]
            simpa using hdf
          obtain ⟨s2, hloop, ha, hb, hwf⟩ := ih (logEvent (dirWarning d) s) hrest
          refine ⟨s2, ?_, ?_, ?_, fun hw => hwf hw⟩
          · rw [dirLoop_cons, if_pos hsk]
            exact hloop
          · rw [ha, attemptedOver_cons, if_pos hsk]
            simp
          · rw [hb, attemptedOver_cons, if_pos hsk]
            simp
      | false =>
          have hsk2 : ¬(skipsDir env d = true) := by
            rw [hsk]; exact Bool.false_ne_true
          have hfiles : ∀ f ∈ discoveredIn p env d,
              env.tool (buildCommand p f
                (processOutputPath p f (osPathJoin d "processed_files")))
                ≠ ToolResult.launchFailure := by
            intro f hf
            apply h (d, f)
            rw [attemptedOver_cons, if_neg hsk2]
            apply List.mem_append_left
            exact List.mem_map_of_mem _ hf
          obtain ⟨s1, hloop1, ha1, hb1, hwf1⟩ :=
            processFilesLoop_result p env (osPathJoin d "processed_files")
              (discoveredIn p env d) (logEvent (.workingDir d) s) hfiles
          have hrest : ∀ df ∈ attemptedOver p env ds,
              env.tool (commandOf p df) ≠ ToolResult.launchFailure := by
            intro df hdf
            apply h df
            rw [attemptedOver_cons, if_neg hsk2]
            exact List.mem_append_right _ hdf
          obtain ⟨s2, hloop2, ha2, hb2, hwf2⟩ := ih s1 hrest
          refine ⟨s2, ?_, ?_, ?_, fun hw => hwf2 (hwf1 hw)⟩
          · rw [dirLoop_cons, if_neg hsk2]
            show (match processFilesLoop p env (osPathJoin d "processed_files")
                (discoveredIn p env d) (logEvent (.workingDir d) s) with
              | .ok _ s3 => dirLoop p env ds s3
              | .raised s3 => .raised s3) = .ok () s2
            rw [hloop1]
            exact hloop2
          · rw [ha2, ha1, attemptedOver_cons, if_neg hsk2,
              List.filter_append, List.length_append, List.filter_map,
              List.length_map, outcomeOk_comp]
            simp only [logEvent_successFile]
            omega
          · rw [hb2, hb1, attemptedOver_cons, if_neg hsk2,
              List.filter_append, List.length_append, List.filter_map,
              List.length_map, outcomeNotOk_comp]
            simp only [logEvent_errorFile]
            omega

theorem run_found_eq (p : MKVProcessor) (env : Env) (s : RunState)
    (hexec : env.isFile p.MKVMERGE_EXECUTABLE = true) :
    run p env s =
      runFinish env (runBody p env
        (logEvent (.startedAt (env.now s.tick)) { s with tick := s.tick + 1 })) := by
  rw [run_eq, check_executables_found p env _ hexec, if_pos rfl]

theorem runBody_of_checked (p : MKVProcessor) (env : Env) (s s2 : RunState)
    (h : runChecked p env s = .ok () s2) :
    runBody p env s = .ok () (logEvent .checkFilesNote s2) := by
  unfold runBody
  rw [h]

/-! ## C1 -/

/-- C1 as stated is false on the code: with exactly one attempted candidate
file whose tool invocation cannot be launched, the run aborts through the
uncaught `OSError`, and zero outcomes are appended to either ledger store
(both are still absent in the raised state) instead of exactly one. -/
theorem one_outcome_per_attempt_counterexample :
    (attempted procA envLaunch).length = 1 ∧
    run procA envLaunch state0 = .raised
      ⟨.missing, .missing,
        [["/usr/bin/mkvmerge", "-o", "/in/processed_files/a.mkv", "--title",
          "", "--subtitle-tracks", "3,4", "/in/a.mkv"]],
        ["/in/processed_files"],
        [.startedAt "t0", .workingDir "/in", .processingFile "a.mkv"], 1⟩ :=
  ⟨by decide, by decide⟩

/-- C1 (amended): provided every attempted invocation launches (the tool
exits with some status), a run with the executable present completes and
appends exactly one outcome per attempted candidate: the success store grows
by the number of exit-zero attempts, the error store by the number of other
attempts, the two numbers partition the attempted candidates, and — the
pre-run stores satisfying the count invariant — each store's `count` after
the run equals its pre-run `count` plus the number of outcomes of that kind
appended during the run. -/
theorem run_appends_one_outcome_per_attempt (p : MKVProcessor) (env : Env)
    (s : RunState)
    (hexec : env.isFile p.MKVMERGE_EXECUTABLE = true)
    (hwf : ledgersWF s)
    (hlaunch : ∀ df ∈ attempted p env,
      env.tool (commandOf p df) ≠ ToolResult.launchFailure) :
    ∃ s2, run p env s = .ok () s2 ∧
      storeLen s2.successFile = storeLen s.successFile
        + ((attempted p env).filter (outcomeOk p env)).length ∧
      storeLen s2.errorFile = storeLen s.errorFile
        + ((attempted p env).filter (fun df => !outcomeOk p env df)).length ∧
      storeCount s2.successFile = storeCount s.successFile
        + ((attempted p env).filter (outcomeOk p env)).length ∧
      storeCount s2.errorFile = storeCount s.errorFile
        + ((attempted p env).filter (fun df => !outcomeOk p env df)).length ∧
      ((attempted p env).filter (outcomeOk p env)).length
        + ((attempted p env).filter (fun df => !outcomeOk p env df)).length
        = (attempted p env).length := by
  rw [run_found_eq p env s hexec]
  have hpart := (List.length_eq_length_filter_add (l := attempted p env)
    (outcomeOk p env)).symm
  by_cases hnil : p.INPUT_DIRECTORIES = []
  · have hatt : attempted p env = [] := by
      unfold attempted
      rw [hnil]
      rfl
    have hrc : runChecked p env
        (logEvent (.startedAt (env.now s.tick)) { s with tick := s.tick + 1 })
        = .ok () (logEvent .noDirectories
            (logEvent (.startedAt (env.now s.tick))
              { s with tick := s.tick + 1 })) := by
      unfold runChecked
      rw [if_pos hnil]
    rw [runBody_of_checked p env _ _ hrc, runFinish_ok]
    refine ⟨_, rfl, ?_, ?_, ?_, ?_, by rw [hatt] at hpart ⊢; exact hpart⟩ <;>
      simp [hatt, storeLen, storeCount]
  · have hrc : runChecked p env
        (logEvent (.startedAt (env.now s.tick)) { s with tick := s.tick + 1 })
        = dirLoop p env p.INPUT_DIRECTORIES
            (logEvent (.startedAt (env.now s.tick))
              { s with tick := s.tick + 1 }) := by
      unfold runChecked
      rw [if_neg hnil]
    obtain ⟨s2, hdl, ha, hb, hwfp⟩ := dirLoop_result p env p.INPUT_DIRECTORIES
      (logEvent (.startedAt (env.now s.tick)) { s with tick := s.tick + 1 })
      hlaunch
    have hwf2 : ledgersWF s2 := hwfp hwf
    rw [runBody_of_checked p env _ _ (hrc.trans hdl), runFinish_ok]
    have hsucc : storeLen s2.successFile = storeLen s.successFile
        + ((attempted p env).filter (outcomeOk p env)).length := ha
    have herr : storeLen s2.errorFile = storeLen s.errorFile
        + ((attempted p env).filter (fun df => !outcomeOk p env df)).length := hb
    refine ⟨_, rfl, ?_, ?_, ?_, ?_, hpart⟩
    · simpa using hsucc
    · simpa using herr
    · have h1 : storeCount s2.successFile = storeLen s2.successFile := hwf2.1
      have h2 : storeCount s.successFile = storeLen s.successFile := hwf.1
      simpa [h1, h2] using hsucc
    · have h1 : storeCount s2.errorFile = storeLen s2.errorFile := hwf2.2
      have h2 : storeCount s.errorFile = storeLen s.errorFile := hwf.2
      simpa [h1, h2] using herr

/-- Witness for C1 (amended): the one-file fixture where the tool exits
zero for every invocation. -/
theorem run_appends_one_outcome_witness :
    ∃ s2, run procA envOk state0 = .ok () s2 ∧
      storeLen s2.successFile = storeLen state0.successFile
        + ((attempted procA envOk).filter (outcomeOk procA envOk)).length ∧
      storeLen s2.errorFile = storeLen state0.errorFile
        + ((attempted procA envOk).filter
            (fun df => !outcomeOk procA envOk df)).length ∧
      storeCount s2.successFile = storeCount state0.successFile
        + ((attempted procA envOk).filter (outcomeOk procA envOk)).length ∧
      storeCount s2.errorFile = storeCount state0.errorFile
        + ((attempted procA envOk).filter
            (fun df => !outcomeOk procA envOk df)).length ∧
      ((attempted procA envOk).filter (outcomeOk procA envOk)).length
        + ((attempted procA envOk).filter
            (fun df => !outcomeOk procA envOk df)).length
        = (attempted procA envOk).length :=
  run_appends_one_outcome_per_attempt procA envOk state0 (by decide)
    ⟨rfl, rfl⟩ (by decide)

end MKV
